import Mathlib

/-!
Verification of the trainex-desktop core against its specification.

The development shallowly embeds the two core modules:
  * `src/renderer/src/lib/ics/parseIcs.ts` (the Calendar Decoder), and
  * `src/main/trainexSync.ts` (the Retrieval Orchestrator and Byte Sniffer).

JavaScript strings are modelled as Lean `String`s (sequences of Unicode
scalar values; UTF-16 code units are recovered by `utf16Units` where the
source indexes by code unit).  Platform library calls that are not part of
the repository's own code (the `Date` constructor and `toISOString`, the
locale collator behind `localeCompare`, relative WHATWG-URL resolution, and
the Playwright browser) are modelled as parameters of explicit environment
structures; everything written in the repository itself is translated
definition by definition.
-/

namespace Trainex

/-! ## JavaScript string primitives -/

/-- The character set removed by `String.prototype.trim` and matched by the
regex class `\s`: ECMAScript WhiteSpace plus LineTerminator. -/
def isJsWs (c : Char) : Bool :=
  let n := c.toNat
  (n == 9) || (n == 10) || (n == 11) || (n == 12) || (n == 13) || (n == 32) ||
  (n == 160) || (n == 0x1680) || (0x2000 ≤ n && n ≤ 0x200A) ||
  (n == 0x2028) || (n == 0x2029) || (n == 0x202F) || (n == 0x205F) ||
  (n == 0x3000) || (n == 0xFEFF)

/-- `s.trim()`. -/
def jsTrim (s : String) : String :=
  ⟨((s.data.dropWhile isJsWs).reverse.dropWhile isJsWs).reverse⟩

/-- ASCII lower-casing of one character (used for case-insensitive regex
tests on ASCII patterns; a non-ASCII character never canonicalizes to an
ASCII one under a non-`u` ECMAScript regex). -/
def asciiLower (c : Char) : Char :=
  if 65 ≤ c.toNat ∧ c.toNat ≤ 90 then Char.ofNat (c.toNat + 32) else c

/-- ASCII upper-casing of one character; models `toUpperCase` on the ASCII
range (the only range relevant to the duration grammar). -/
def asciiUpper (c : Char) : Char :=
  if 97 ≤ c.toNat ∧ c.toNat ≤ 122 then Char.ofNat (c.toNat - 32) else c

def asciiUpperStr (s : String) : String := ⟨s.data.map asciiUpper⟩

def isAsciiDigit (c : Char) : Bool := 48 ≤ c.toNat && c.toNat ≤ 57

/-- `Number(s)` for a non-empty all-digit string (exact; the decoder only
converts short digit runs). -/
def digitsToNat (l : List Char) : Nat :=
  l.foldl (fun a c => a * 10 + (c.toNat - 48)) 0

/-- Split on a single separator character, keeping empty pieces, as
`String.prototype.split` does. -/
def splitCh (sep : Char) : List Char → List (List Char)
  | [] => [[]]
  | c :: rest =>
    match splitCh sep rest with
    | [] => if c = sep then [[], []] else [[c]]
    | h :: t => if c = sep then [] :: h :: t else (c :: h) :: t

/-- `s.split(/\r?\n/)`: a line break is `\r\n` or a bare `\n`; a bare `\r`
is an ordinary character. -/
def splitLinesRE : List Char → List (List Char)
  | [] => [[]]
  | '\r' :: '\n' :: rest =>
    [] :: splitLinesRE rest
  | '\n' :: rest =>
    [] :: splitLinesRE rest
  | c :: rest =>
    match splitLinesRE rest with
    | [] => [[c]]
    | h :: t => (c :: h) :: t

/-- One global two-character replacement pass, leftmost and
non-overlapping, as `replace(/xy/g, "z")`. -/
def repl2 (a b r : Char) : List Char → List Char
  | x :: y :: rest =>
    if x = a ∧ y = b then r :: repl2 a b r rest else x :: repl2 a b r (y :: rest)
  | l => l

/-- `s.endsWith("Z")`. -/
def endsWithZ (s : String) : Bool :=
  match s.data.getLast? with
  | some c => c = 'Z'
  | none => false

/-! ## Calendar Decoder: `parseIcs.ts` -/

/-- A decoded event; the source's `TrainexEvent`.  The `end` field is named
`stop` because `end` is a Lean keyword. -/
structure TrainexEvent where
  id : String
  summary : String
  start : String
  stop : String
  location : Option String
  description : Option String
  categories : Option (List String)
deriving DecidableEq, Repr

/-- `unfoldIcsLines`: normalize newlines, then delete every newline that is
followed by a space or tab (RFC folding). -/
def unfoldIcsLines (input : String) : String :=
  let normalized := (repl2 '\r' '\n' '\n' input.data).map (fun c => if c = '\r' then '\n' else c)
  ⟨unfoldStep normalized⟩
where
  /-- `replace(/\n[ \t]/g, "")`. -/
  unfoldStep : List Char → List Char
    | '\n' :: c :: rest =>
      if c = ' ' ∨ c = '\t' then unfoldStep rest else '\n' :: unfoldStep (c :: rest)
    | c :: rest => c :: unfoldStep rest
    | [] => []

/-- `replace(/\\n/gi, "\n")`: backslash followed by `n` or `N`. -/
def replBsN : List Char → List Char
  | '\\' :: c :: rest =>
    if c = 'n' ∨ c = 'N' then '\n' :: replBsN rest else '\\' :: replBsN (c :: rest)
  | c :: rest => c :: replBsN rest
  | [] => []

/-- `unescapeIcsText`: the four replacement passes in source order. -/
def unescapeIcsText (value : String) : String :=
  ⟨repl2 '\\' '\\' '\\' (repl2 '\\' ';' ';' (repl2 '\\' ',' ',' (replBsN value.data)))⟩

/-- `splitIcsLine`: split at the first colon; the key is the part left of
the first semicolon, trimmed; the value is unescaped.  `none` when the line
has no colon. -/
def splitIcsLine (line : String) : Option String × String :=
  let left := line.data.takeWhile (· ≠ ':')
  if left.length = line.data.length then (none, "")
  else
    (some (jsTrim ⟨left.takeWhile (· ≠ ';')⟩),
     unescapeIcsText ⟨line.data.drop (left.length + 1)⟩)

/-- The platform `Date` facilities the decoder delegates to.  `localToIso`
and `utcToIso` take the constructor arguments of `new Date(y, mIdx, d, hh,
mm, ss)` (month index, i.e. month minus one) and return `toISOString()`;
`parseMs` is `new Date(s).getTime()` with `NaN` as `none`; `isoOfMs` is
`new Date(ms).toISOString()`; `localeCompare` is `a.localeCompare(b)`. -/
structure DateEnv where
  localToIso : Int → Int → Int → Int → Int → Int → String
  utcToIso : Int → Int → Int → Int → Int → Int → String
  parseMs : String → Option Int
  isoOfMs : Int → String
  localeCompare : String → String → Int

/-- `icsDateToIso`: strip one trailing `Z` if present; an 8-digit rest is a
local midnight, a 15-character `YYYYMMDDThhmmss` rest is a UTC instant when
the `Z` was present and local wall-clock time otherwise; anything else is
returned unchanged (the original string, `Z` included). -/
def icsDateToIso (env : DateEnv) (dt : String) : String :=
  let zulu := endsWithZ dt
  let raw : List Char := if zulu then dt.data.dropLast else dt.data
  if raw.length = 8 ∧ raw.all isAsciiDigit then
    let y : Int := digitsToNat (raw.take 4)
    let m : Int := digitsToNat ((raw.drop 4).take 2)
    let d : Int := digitsToNat ((raw.drop 6).take 2)
    env.localToIso y (m - 1) d 0 0 0
  else if raw.length = 15 ∧ (raw.take 8).all isAsciiDigit ∧
      raw.drop 8 ≠ [] ∧ (raw.drop 8).head? = some 'T' ∧ (raw.drop 9).all isAsciiDigit then
    let y : Int := digitsToNat (raw.take 4)
    let m : Int := digitsToNat ((raw.drop 4).take 2)
    let d : Int := digitsToNat ((raw.drop 6).take 2)
    let hh : Int := digitsToNat ((raw.drop 9).take 2)
    let mm : Int := digitsToNat ((raw.drop 11).take 2)
    let ss : Int := digitsToNat ((raw.drop 13).take 2)
    if zulu then env.utcToIso y (m - 1) d hh mm ss else env.localToIso y (m - 1) d hh mm ss
  else dt

/-- `(h * 31 + c) >>> 0` over exact Nat arithmetic (the float product stays
below 2^53, so the JS computation is exact before the unsigned clamp). -/
def hashStep (h c : Nat) : Nat := (h * 31 + c) % 4294967296

/-- The UTF-16 code units of a string, in order (what `charCodeAt` yields
at each index of the JS string). -/
def utf16Units (s : String) : List Nat :=
  (s.data.map fun c =>
    if c.toNat < 0x10000 then [c.toNat]
    else [0xD800 + (c.toNat - 0x10000) / 0x400, 0xDC00 + (c.toNat - 0x10000) % 0x400]).flatten

/-- `makeId`: the 32-bit multiply-by-31-and-add rolling hash of
`summary|start|end|location`, rendered in lowercase hexadecimal after the
prefix `evt_`. -/
def makeId (summary startIso endIso location : String) : String :=
  let base := summary ++ "|" ++ startIso ++ "|" ++ endIso ++ "|" ++ location
  "evt_" ++ String.mk (Nat.toDigits 16 ((utf16Units base).foldl hashStep 0))

/-! Duration parsing: `parseIcsDurationToMs` matches
`^P(?:(\d+)D)?(?:T(?:(\d+)H)?(?:(\d+)M)?(?:(\d+)S)?)?$` on the trimmed,
upper-cased input.  Each optional group `(\d+)X` matches exactly when a
non-empty digit run is followed by its letter; a digit run not followed by
the expected letter can be claimed by no later group, so the regex is
equivalent to the deterministic scan below. -/

def spanDigits (l : List Char) : List Char × List Char :=
  (l.takeWhile isAsciiDigit, l.dropWhile isAsciiDigit)

def msOf (d h m s : Nat) : Nat := (((d * 24 + h) * 60 + m) * 60 + s) * 1000

/-- The `(?:(\d+)S)?$` tail. -/
def durS (d h m : Nat) (l : List Char) : Option Nat :=
  let p := spanDigits l
  match p.2 with
  | 'S' :: r =>
    if p.1 ≠ [] ∧ r = [] then some (msOf d h m (digitsToNat p.1)) else none
  | [] => if p.1 = [] then some (msOf d h m 0) else none
  | _ => none

/-- The `(?:(\d+)M)?` group followed by the seconds tail. -/
def durM (d h : Nat) (l : List Char) : Option Nat :=
  let p := spanDigits l
  match p.2 with
  | 'M' :: r => if p.1 ≠ [] then durS d h (digitsToNat p.1) r else durS d h 0 l
  | _ => durS d h 0 l

/-- The `(?:(\d+)H)?` group followed by the minutes group. -/
def durH (d : Nat) (l : List Char) : Option Nat :=
  let p := spanDigits l
  match p.2 with
  | 'H' :: r => if p.1 ≠ [] then durM d (digitsToNat p.1) r else durM d 0 l
  | _ => durM d 0 l

/-- The optional `T...` block after the days group. -/
def durT (d : Nat) : List Char → Option Nat
  | [] => some (msOf d 0 0 0)
  | 'T' :: rest => durH d rest
  | _ => none

/-- The `(?:(\d+)D)?` group after `P`. -/
def durAfterP (l : List Char) : Option Nat :=
  let p := spanDigits l
  if p.1 ≠ [] then
    match p.2 with
    | 'D' :: r => durT (digitsToNat p.1) r
    | _ => none
  else durT 0 l

/-- `parseIcsDurationToMs` (the `Number.isNaN` guard in the source can
never fire on `\d+` captures and is dropped). -/
def parseIcsDurationToMs (duration : String) : Option Nat :=
  let d := asciiUpperStr (jsTrim duration)
  match d.data with
  | 'P' :: rest => durAfterP rest
  | _ => none

/-- `computeEndFromDuration`: `none` models `null`; an absent or empty
(falsy) duration, an unparseable duration, and an unparseable start all
yield `none`. -/
def computeEndFromDuration (env : DateEnv) (startIso : String)
    (duration : Option String) : Option String :=
  match duration with
  | none => none
  | some dur =>
    if dur = "" then none
    else
      match parseIcsDurationToMs dur with
      | none => none
      | some ms =>
        match env.parseMs startIso with
        | none => none
        | some t => some (env.isoOfMs (t + (ms : Int)))

/-- The mutable `current` record accumulated inside one event block.  The
source's `end` field is named `stop`. -/
structure IcsCurrent where
  summary : Option String := none
  description : Option String := none
  location : Option String := none
  categories : Option (List String) := none
  start : Option String := none
  stop : Option String := none
  duration : Option String := none
deriving DecidableEq, Repr

/-- `value.split(",").map(trim).filter(Boolean)`. -/
def jsCategories (value : String) : List String :=
  ((splitCh ',' value.data).map fun p => jsTrim ⟨p⟩).filter (· ≠ "")

/-- The `switch (key)` of the decoder loop applied to one trimmed content
line. -/
def applyContentLine (env : DateEnv) (cur : IcsCurrent) (line : String) : IcsCurrent :=
  match splitIcsLine line with
  | (none, _) => cur
  | (some key, value) =>
    if key = "SUMMARY" then { cur with summary := some value }
    else if key = "DESCRIPTION" then { cur with description := some value }
    else if key = "LOCATION" then { cur with location := some value }
    else if key = "CATEGORIES" then { cur with categories := some (jsCategories value) }
    else if key = "DTSTART" then { cur with start := some (icsDateToIso env value) }
    else if key = "DTEND" then { cur with stop := some (icsDateToIso env value) }
    else if key = "DURATION" then { cur with duration := some value }
    else cur

/-- `current.location?.trim() || undefined`. -/
def optTrimOrNone (o : Option String) : Option String :=
  match o with
  | none => none
  | some s => let t := jsTrim s; if t = "" then none else some t

/-- The `END:VEVENT` emission logic applied to an accumulated record:
`some` event exactly when the trimmed summary and start are non-empty. -/
def closeEvent (env : DateEnv) (c : IcsCurrent) : Option TrainexEvent :=
  let summary := jsTrim (c.summary.getD "")
  let start := jsTrim (c.start.getD "")
  let endStr := jsTrim (c.stop.getD "")
  if summary ≠ "" ∧ start ≠ "" then
    let computedEnd :=
      if endStr ≠ "" then endStr
      else
        match computeEndFromDuration env start c.duration with
        | some e => if e ≠ "" then e else start
        | none => start
    some
      { id := makeId summary start computedEnd (c.location.getD "")
        summary := summary
        start := start
        stop := computedEnd
        location := optTrimOrNone c.location
        description := optTrimOrNone c.description
        categories := c.categories }
  else none

/-- The loop state of `parseIcsToEvents`. -/
structure IcsState where
  inEvent : Bool
  cur : Option IcsCurrent
  events : List TrainexEvent

/-- One iteration of the decoder's `for` loop. -/
def icsStep (env : DateEnv) (st : IcsState) (rawLine : String) : IcsState :=
  let line := jsTrim rawLine
  if line = "" then st
  else if line = "BEGIN:VEVENT" then { st with inEvent := true, cur := some {} }
  else if line = "END:VEVENT" then
    let pushed :=
      match st.inEvent, st.cur with
      | true, some c => (closeEvent env c).toList
      | _, _ => []
    { inEvent := false, cur := none, events := st.events ++ pushed }
  else
    match st.inEvent, st.cur with
    | true, some c => { st with cur := some (applyContentLine env c line) }
    | _, _ => st

/-- The logical lines the decoder scans: unfold, then split on `\r?\n`. -/
def icsLines (text : String) : List String :=
  (splitLinesRE (unfoldIcsLines text).data).map String.mk

/-- The decoder loop over a list of raw lines (events in push order). -/
def processLines (env : DateEnv) (lines : List String) : List TrainexEvent :=
  (lines.foldl (icsStep env) ⟨false, none, []⟩).events

/-- Stable insertion of one element into a comparator-sorted list: the new
element goes before the first element it compares strictly below. -/
def insertRight (cmp : TrainexEvent → TrainexEvent → Int) (x : TrainexEvent) :
    List TrainexEvent → List TrainexEvent
  | [] => [x]
  | y :: ys => if cmp x y < 0 then x :: y :: ys else y :: insertRight cmp x ys

/-- `events.sort((a, b) => a.start.localeCompare(b.start))`, modelled as a
stable comparator sort. -/
def jsSortEvents (env : DateEnv) (l : List TrainexEvent) : List TrainexEvent :=
  l.foldl (fun acc x => insertRight (fun a b => env.localeCompare a.start b.start) x acc) []

/-- `parseIcsToEvents` (the current version of the decoder, with the
duration fallback). -/
def parseIcsToEvents (env : DateEnv) (icsText : String) : List TrainexEvent :=
  jsSortEvents env (processLines env (icsLines icsText))

/-! ## Byte Sniffer: `trainexSync.ts`, `looksLikeIcs` and helpers

Buffers are modelled as lists of byte values. -/

/-- Exact-sequence prefix test on numeric lists. -/
def hasPrefixN : List Nat → List Nat → Bool
  | [], _ => true
  | _ :: _, [] => false
  | p :: ps, x :: xs => p == x && hasPrefixN ps xs

/-- Contiguous-subsequence test on numeric lists. -/
def containsSeq (pat : List Nat) : List Nat → Bool
  | [] => hasPrefixN pat []
  | x :: xs => hasPrefixN pat (x :: xs) || containsSeq pat xs

/-- ASCII upper-casing of one UTF-16 code unit: under a non-`u`
case-insensitive ECMAScript regex, the only code units matching an ASCII
letter of the pattern are its two case variants. -/
def asciiUpperUnit (u : Nat) : Nat := if 97 ≤ u ∧ u ≤ 122 then u - 32 else u

/-- The code units of the literal `BEGIN:VCALENDAR`. -/
def markerUnits : List Nat := "BEGIN:VCALENDAR".data.map Char.toNat

/-- `/BEGIN:VCALENDAR/i.test` on a decoded code-unit sequence. -/
def containsMarker (units : List Nat) : Bool :=
  containsSeq (markerUnits.map asciiUpperUnit) (units.map asciiUpperUnit)

/-- `isIcsBytes`: test the marker on the `ascii` decoding (each byte masked
to 7 bits, as Node's `ascii` decoder does). -/
def isIcsBytes (body : List Nat) : Bool :=
  containsMarker (body.map (· % 128))

/-- `isUtf16Le`: length at least 2 and leading bytes FF FE. -/
def isUtf16Le (buffer : List Nat) : Bool :=
  match buffer with
  | b0 :: b1 :: _ => b0 == 255 && b1 == 254
  | _ => false

/-- `isUtf16Be`: length at least 2 and leading bytes FE FF. -/
def isUtf16Be (buffer : List Nat) : Bool :=
  match buffer with
  | b0 :: b1 :: _ => b0 == 254 && b1 == 255
  | _ => false

/-- Node's `utf16le` decoding: consecutive little-endian byte pairs; a
trailing odd byte is dropped. -/
def u16le : List Nat → List Nat
  | b0 :: b1 :: rest => (b0 + 256 * b1) :: u16le rest
  | _ => []

/-- Big-endian byte pairs.  The source's swap loop copies `buffer[2..]`
into a little-endian buffer of length `len - 2`; when `len` is odd the last
(uninitialized) byte of that buffer is dropped by the `utf16le` decode, so
the decoded units are exactly the big-endian pairs of `buffer.drop 2`. -/
def u16be : List Nat → List Nat
  | b0 :: b1 :: rest => (b1 + 256 * b0) :: u16be rest
  | _ => []

/-- `hasUtf16VCalendar`. -/
def hasUtf16VCalendar (buffer : List Nat) : Bool :=
  if buffer.length < 4 then false
  else if isUtf16Le buffer then containsMarker (u16le buffer)
  else if isUtf16Be buffer then containsMarker (u16be (buffer.drop 2))
  else false

/-- `looksLikeIcs` (the `headers` argument is voided by the source). -/
def looksLikeIcs (body : List Nat) (headers : List (String × String)) : Bool :=
  isIcsBytes body || hasUtf16VCalendar body

/-! ## URL model

A minimal model of the WHATWG `URL`/`URLSearchParams` operations the
orchestrator uses on the absolute, already-normalized URLs it builds:
splitting off the query, form-urlencoded parsing and serialization, and
`searchParams.set`.  Percent-decoding is modelled per code point (the
byte-level UTF-8 reassembly of multi-byte escapes is not needed for the
ASCII token parameters this module handles). -/

def BASE_URL : String := "https://trex.phwt.de/phwt-trainex/"

def hexDigitUpper (n : Nat) : Char :=
  if n < 10 then Char.ofNat (48 + n) else Char.ofNat (55 + n)

def hexVal (c : Char) : Option Nat :=
  if '0' ≤ c ∧ c ≤ '9' then some (c.toNat - 48)
  else if 'A' ≤ c ∧ c ≤ 'F' then some (c.toNat - 55)
  else if 'a' ≤ c ∧ c ≤ 'f' then some (c.toNat - 87)
  else none

def utf8Bytes (c : Char) : List Nat :=
  let n := c.toNat
  if n < 0x80 then [n]
  else if n < 0x800 then [0xC0 + n / 64, 0x80 + n % 64]
  else if n < 0x10000 then [0xE0 + n / 4096, 0x80 + (n / 64) % 64, 0x80 + n % 64]
  else [0xF0 + n / 262144, 0x80 + (n / 4096) % 64, 0x80 + (n / 64) % 64, 0x80 + n % 64]

def isFormUnreserved (c : Char) : Bool :=
  isAsciiDigit c || ('A' ≤ c && c ≤ 'Z') || ('a' ≤ c && c ≤ 'z') ||
  c = '*' || c = '-' || c = '.' || c = '_'

/-- One character of form-urlencoded serialization. -/
def formEncodeChar (c : Char) : List Char :=
  if isFormUnreserved c then [c]
  else if c = ' ' then ['+']
  else ((utf8Bytes c).map fun b => ['%', hexDigitUpper (b / 16), hexDigitUpper (b % 16)]).flatten

def formEncode (s : String) : String := ⟨(s.data.map formEncodeChar).flatten⟩

/-- Form-urlencoded decoding of one query token: `+` to space and `%XX`
escapes. -/
def percentPlusDecode : List Char → List Char
  | [] => []
  | '+' :: rest => ' ' :: percentPlusDecode rest
  | '%' :: a :: b :: rest =>
    match hexVal a, hexVal b with
    | some x, some y => Char.ofNat (16 * x + y) :: percentPlusDecode rest
    | _, _ => '%' :: percentPlusDecode (a :: b :: rest)
  | c :: rest => c :: percentPlusDecode rest

/-- `URLSearchParams` parsing of a raw query. -/
def parseQuery (q : List Char) : List (String × String) :=
  (splitCh '&' q).filterMap fun piece =>
    if piece = [] then none
    else
      let name := piece.takeWhile (· ≠ '=')
      let value := if name.length = piece.length then [] else piece.drop (name.length + 1)
      some (⟨percentPlusDecode name⟩, ⟨percentPlusDecode value⟩)

/-- An absolute URL split into its pre-query part and its decoded query
pairs. -/
structure JsUrl where
  base : String
  params : List (String × String)
deriving DecidableEq

def parseUrl (s : String) : JsUrl :=
  let noFrag := s.data.takeWhile (· ≠ '#')
  let base := noFrag.takeWhile (· ≠ '?')
  let query := if base.length = noFrag.length then [] else noFrag.drop (base.length + 1)
  ⟨⟨base⟩, parseQuery query⟩

/-- `searchParams.set`: update the first pair with the name, delete the
rest, append when absent. -/
def urlParamsSet : List (String × String) → String → String → List (String × String)
  | [], k, v => [(k, v)]
  | (k1, v1) :: rest, k, v =>
    if k1 = k then (k, v) :: rest.filter (fun p => p.1 ≠ k)
    else (k1, v1) :: urlParamsSet rest k v

def serializeQuery (ps : List (String × String)) : String :=
  String.intercalate "&" (ps.map fun p => formEncode p.1 ++ "=" ++ formEncode p.2)

def urlToString (u : JsUrl) : String :=
  if u.params = [] then u.base else u.base ++ "?" ++ serializeQuery u.params

/-! ## Link/Token Discovery: `trainexSync.ts` pure helpers -/

/-- `Pick<TrainexSyncArgs, "day" | "month" | "year">`. -/
structure DateArgs where
  day : Int
  month : Int
  year : Int

/-- `args.day > 0 ? String(args.day) : ""` — the `utag` query value shared
by every URL builder. -/
def utagOf (day : Int) : String := if day > 0 then toString day else ""

/-- `icsCandidateUrl`: a template-string concatenation, not a `URL`. -/
def icsCandidateUrl (args : DateArgs) : String :=
  BASE_URL ++ "cfm/einsatzplan/einsatzplan_listenansicht_iCal.cfm?ics=1&utag=" ++
    utagOf args.day ++ "&umonat=" ++ toString args.month ++ "&ujahr=" ++ toString args.year

def einsatzplanIndexUrl : String := BASE_URL ++ "cfm/einsatzplan/"

/-- Case-insensitive prefix test: the pattern is given lower-case. -/
def hasPrefixCI : List Char → List Char → Bool
  | [], _ => true
  | _ :: _, [] => false
  | p :: ps, c :: cs => p = asciiLower c && hasPrefixCI ps cs

/-- First index of a case-insensitive occurrence of the (lower-case)
pattern. -/
def firstIndexCI (pat : List Char) : List Char → Option Nat
  | [] => none
  | c :: rest =>
    if hasPrefixCI pat (c :: rest) then some 0
    else (firstIndexCI pat rest).map (· + 1)

def containsCI (pat : List Char) (l : List Char) : Bool := (firstIndexCI pat l).isSome

/-- `/^TokCF\d+$/i`. -/
def nameIsTokCF (s : String) : Bool :=
  match s.data.map asciiLower with
  | 't' :: 'o' :: 'k' :: 'c' :: 'f' :: rest => rest ≠ [] && rest.all isAsciiDigit
  | _ => false

/-- `/^IDphp\d+$/i`. -/
def nameIsIDphp (s : String) : Bool :=
  match s.data.map asciiLower with
  | 'i' :: 'd' :: 'p' :: 'h' :: 'p' :: rest => rest ≠ [] && rest.all isAsciiDigit
  | _ => false

/-- `/^sec/i` (a bare prefix test). -/
def nameStartsWithSec (s : String) : Bool :=
  hasPrefixCI ['s', 'e', 'c'] s.data

/-- Building a JS object by repeated `out[k] = v`: the first insertion
fixes the position, a later assignment overwrites the value. -/
def recordSet (l : List (String × String)) (k v : String) : List (String × String) :=
  if l.any (·.1 = k) then l.map (fun p => if p.1 = k then (k, v) else p) else l ++ [(k, v)]

/-- `extractSessionTokenParams`. -/
def extractSessionTokenParams (url : String) : List (String × String) :=
  ((parseUrl url).params.filter fun p =>
      nameIsTokCF p.1 || nameIsIDphp p.1 || nameStartsWithSec p.1).foldl
    (fun acc p => recordSet acc p.1 p.2) []

/-- The four date-parameter `set` calls shared by `applyDateParams` and
`buildTokenizedIcalUrl`, in source order. -/
def setDateParams (ps : List (String × String)) (args : DateArgs) : List (String × String) :=
  urlParamsSet
    (urlParamsSet
      (urlParamsSet (urlParamsSet ps "ics" "1") "umonat" (toString args.month))
      "ujahr" (toString args.year))
    "utag" (utagOf args.day)

/-- `applyDateParams`. -/
def applyDateParams (url : String) (args : DateArgs) : String :=
  let u := parseUrl url
  urlToString ⟨u.base, setDateParams u.params args⟩

/-- The parameter list of `buildTokenizedIcalUrl` before serialization:
tokens in insertion order, then the date parameters. -/
def buildTokenizedParams (tokens : List (String × String)) (args : DateArgs) :
    List (String × String) :=
  setDateParams (tokens.foldl (fun acc p => urlParamsSet acc p.1 p.2) []) args

/-- `buildTokenizedIcalUrl`. -/
def buildTokenizedIcalUrl (tokens : List (String × String)) (args : DateArgs) : String :=
  urlToString
    ⟨BASE_URL ++ "cfm/einsatzplan/einsatzplan_listenansicht_iCal.cfm",
     buildTokenizedParams tokens args⟩

/-- `decodeHtmlEntities`: five sequential global replacement passes. -/
def replaceAll (pat rep : List Char) : List Char → List Char
  | [] => []
  | c :: rest =>
    if h : pat ≠ [] ∧ pat.isPrefixOf (c :: rest) then
      rep ++ replaceAll pat rep ((c :: rest).drop pat.length)
    else c :: replaceAll pat rep rest
termination_by l => l.length
decreasing_by
  · simp only [List.length_drop, List.length_cons]
    have hp : pat.length ≠ 0 := fun hn => h.1 (List.eq_nil_of_length_eq_zero hn)
    omega
  · simp

def decodeHtmlEntities (input : String) : String :=
  ⟨replaceAll "&gt;".data ['>'] <|
    replaceAll "&lt;".data ['<'] <|
    replaceAll ("&#39;".data) [Char.ofNat 39] <|
    replaceAll "&quot;".data ['"'] <|
    replaceAll "&amp;".data ['&'] input.data⟩

/-- The export-endpoint path segment, as a lower-case pattern. -/
def icalSeg : List Char := "einsatzplan_listenansicht_ical.cfm?".data

/-- The character class `[^'"\s<>]` of the global export-link regex. -/
def icalRunAllowed (c : Char) : Bool :=
  !(c = Char.ofNat 39 || c = '"' || isJsWs c || c = '<' || c = '>')

/-- All matches of `/einsatzplan_listenansicht_iCal\.cfm\?[^'"\s<>]*/gi`:
leftmost, non-overlapping, each extended greedily over the allowed class
(every character of the fixed segment is itself in the class, so a match is
exactly the maximal allowed run from its start). -/
def scanIcal : List Char → List (List Char)
  | [] => []
  | c :: rest =>
    if hasPrefixCI icalSeg (c :: rest) then
      let m := (c :: rest).takeWhile icalRunAllowed
      m :: scanIcal (rest.drop (m.length - 1))
    else scanIcal rest
termination_by l => l.length
decreasing_by
  · simp only [List.length_drop, List.length_cons]
    omega
  · simp

/-- `/pat\d+=/i` as a substring test (used for `TokCF`, `IDphp`, `sec`). -/
def hasTokenRef (pat : List Char) : List Char → Bool
  | [] => false
  | c :: rest =>
    (hasPrefixCI pat (c :: rest) &&
      (let t := (c :: rest).drop pat.length
       let ds := t.takeWhile isAsciiDigit
       ds ≠ [] && (t.drop ds.length).head? = some '=')) ||
    hasTokenRef pat rest

/-- The capture-group test of `findIcsExportUrlFromHtml`: the quoted run
must contain the path segment and, at or after its end, `ics=1`. -/
def runHasExportPattern (run : List Char) : Bool :=
  match firstIndexCI icalSeg run with
  | none => false
  | some i => containsCI "ics=1".data (run.drop (i + icalSeg.length))

/-- The character class `[^'"\s>]` of the anchored export-link regex. -/
def hrefRunAllowed (c : Char) : Bool :=
  !(c = Char.ofNat 39 || c = '"' || isJsWs c || c = '>')

/-- Try the anchored regex
`(?:href\s*=\s*['"])([^'"\s>]*...iCal\.cfm\?[^'"\s>]*ics=1[^'"\s>]*)` at
one position; the capture, when the pattern matches, is the maximal
allowed run after the quote. -/
def tryHrefAt (l : List Char) : Option (List Char) :=
  if hasPrefixCI "href".data l then
    match (l.drop 4).dropWhile isJsWs with
    | '=' :: t2 =>
      match t2.dropWhile isJsWs with
      | q :: t4 =>
        if q = '"' ∨ q = Char.ofNat 39 then
          let run := t4.takeWhile hrefRunAllowed
          if runHasExportPattern run then some run else none
        else none
      | [] => none
    | _ => none
  else none

/-- Leftmost successful position of the anchored export-link regex. -/
def scanHrefExport : List Char → Option (List Char)
  | [] => none
  | c :: rest =>
    match tryHrefAt (c :: rest) with
    | some r => some r
    | none => scanHrefExport rest

/-! ## Retrieval Orchestrator: `syncTrainexIcs`

The Playwright browser, the portal, and relative WHATWG-URL resolution are
the environment; every launch, navigation and HTTP fetch the orchestrator
performs is recorded in an action trace, in order.  The `log`/`status`
callbacks are purely observational and are not modelled; `timeoutMs`,
`profileDir` and `cacheDir` only parametrize the launch options. -/

/-- `TrainexSyncResult`. -/
inductive TrainexSyncResult where
  | ok (icsBytesBase64 : String)
  | err (error : String) (hint : Option String)
deriving DecidableEq, Repr

/-- The modelled arguments of `syncTrainexIcs`. -/
structure TrainexSyncArgs where
  username : String
  password : String
  month : Int
  year : Int
  day : Int

/-- One observable browser/network effect. -/
inductive SyncAction where
  | launch
  | navigate (url : String)
  | fetchGet (url : String)
  | anchorScan (url : String)
deriving DecidableEq, Repr

/-- The browser-session environment: `finalUrl u` is `page.url()` after
`page.goto(u)`; `pageContent u` is `page.content()` on the page whose final
URL is `u`; `anchorHrefs u` its anchor `href`s; `fetchBody u` the body of a
2xx `page.request.get(u)` (`none` for a non-2xx response);
`resolveRelativeUrl` is `new URL(rel, BASE_URL).toString()`;
`stillOnLoginPageAfterSubmit` the login-failure heuristic's verdict. -/
structure SyncEnv where
  executableExists : Bool
  isWin32 : Bool
  stillOnLoginPageAfterSubmit : Bool
  finalUrl : String → String
  pageContent : String → String
  anchorHrefs : String → List String
  fetchBody : String → Option (List Nat)
  resolveRelativeUrl : String → String

/-- `normalizeUrl`. -/
def normalizeUrl (env : SyncEnv) (url : String) : String :=
  if isAbsHttp url then url else env.resolveRelativeUrl url
where
  /-- `/^https?:\/\//i`. -/
  isAbsHttp (u : String) : Bool :=
    hasPrefixCI "http://".data u.data || hasPrefixCI "https://".data u.data

/-- `findIcsExportUrlFromHtml`. -/
def findIcsExportUrlFromHtml (env : SyncEnv) (html : String) : Option String :=
  match scanHrefExport (decodeHtmlEntities html).data with
  | none => none
  | some r => some (normalizeUrl env ⟨r⟩)

/-- `findAnyIcalUrlFromHtml`: all global matches, preferring one that
carries a recognizable session-token parameter. -/
def findAnyIcalUrlFromHtml (env : SyncEnv) (html : String) : Option String :=
  let ms := scanIcal (decodeHtmlEntities html).data
  match ms with
  | [] => none
  | m0 :: _ =>
    let preferred := ms.find? fun m =>
      hasTokenRef "tokcf".data m || hasTokenRef "idphp".data m || hasTokenRef "sec".data m
    some (normalizeUrl env ⟨preferred.getD m0⟩)

/-- `discoverIcsUrl`: the first DOM anchor matching the export pattern with
`ics=1`. -/
def discoverIcsUrl (env : SyncEnv) (hrefs : List String) : Option String :=
  (hrefs.find? fun h => containsCI icalSeg h.data && containsCI "ics=1".data h.data).map
    fun h => normalizeUrl env (decodeHtmlEntities h)

/-- `body.toString("base64")`. -/
def toBase64 (bytes : List Nat) : String := ⟨go bytes⟩
where
  b64Char (n : Nat) : Char :=
    ("ABCDEFGHIJKLMNOPQRSTUVWXYZabcdefghijklmnopqrstuvwxyz0123456789+/".data.getD n 'A')
  go : List Nat → List Char
    | [] => []
    | [a] => [b64Char (a / 4), b64Char (a % 4 * 16), '=', '=']
    | [a, b] => [b64Char (a / 4), b64Char (a % 4 * 16 + b / 16), b64Char (b % 16 * 4), '=']
    | a :: b :: c :: rest =>
      b64Char (a / 4) :: b64Char (a % 4 * 16 + b / 16) ::
        b64Char (b % 16 * 4 + c / 64) :: b64Char (c % 64) :: go rest

/-- The shared `tryFetch` closure: a non-2xx response and a body that does
not look like calendar content are both misses; a hit is the body in
base64.  The fetch attempt is the recorded action. -/
def tryFetchM (env : SyncEnv) (url : String) : Option String × List SyncAction :=
  (match env.fetchBody url with
   | none => none
   | some body => if looksLikeIcs body [] then some (toBase64 body) else none,
   [SyncAction.fetchGet url])

/-- The first bootstrap page (the list page). -/
def bootstrapUrl1 : String := BASE_URL ++ "cfm/einsatzplan/einsatzplan_listenansicht_kt.cfm"

/-- The bootstrap page list tried by the fallback chain's first step. -/
def tokenBootstrapUrls : List String :=
  [bootstrapUrl1,
   BASE_URL ++ "cfm/einsatzplan/einsatzplan_stundenplan.cfm",
   BASE_URL ++ "cfm/einsatzplan/"]

/-- One iteration of the bootstrap `for` loop: navigate, extract tokens
from the final URL, try the tokenized month then day URLs, then scan the
page HTML for an export link and try it re-stamped with month then day. -/
def bootstrapStep (env : SyncEnv) (args : TrainexSyncArgs) (u : String) :
    Option String × List SyncAction :=
  let fu := env.finalUrl u
  let tokens := extractSessionTokenParams fu
  let tokenAttempt : Option String × List SyncAction :=
    if tokens ≠ [] then
      let um := buildTokenizedIcalUrl tokens ⟨0, args.month, args.year⟩
      match tryFetchM env um with
      | (some s, a1) => (some s, a1)
      | (none, a1) =>
        let ud := buildTokenizedIcalUrl tokens ⟨args.day, args.month, args.year⟩
        let r := tryFetchM env ud
        (r.1, a1 ++ r.2)
    else (none, [])
  match tokenAttempt with
  | (some s, acts) => (some s, SyncAction.navigate u :: acts)
  | (none, acts) =>
    match findAnyIcalUrlFromHtml env (env.pageContent fu) with
    | none => (none, SyncAction.navigate u :: acts)
    | some icalUrl =>
      let rm := applyDateParams icalUrl ⟨0, args.month, args.year⟩
      match tryFetchM env rm with
      | (some s, b1) => (some s, SyncAction.navigate u :: (acts ++ b1))
      | (none, b1) =>
        let rd := applyDateParams icalUrl ⟨args.day, args.month, args.year⟩
        let r := tryFetchM env rd
        (r.1, SyncAction.navigate u :: (acts ++ b1 ++ r.2))

/-- The bootstrap loop over its page list; a hit short-circuits. -/
def bootstrapChain (env : SyncEnv) (args : TrainexSyncArgs) :
    List String → Option String × List SyncAction
  | [] => (none, [])
  | u :: rest =>
    match bootstrapStep env args u with
    | (some s, acts) => (some s, acts)
    | (none, acts) =>
      let r := bootstrapChain env args rest
      (r.1, acts ++ r.2)

/-- The chain after login: bootstrap probing, direct URL construction,
index-page discovery, DOM anchor discovery, else the aggregate failure. -/
def syncChain (env : SyncEnv) (args : TrainexSyncArgs) :
    TrainexSyncResult × List SyncAction :=
  match bootstrapChain env args tokenBootstrapUrls with
  | (some s, acts) => (.ok s, acts)
  | (none, acts0) =>
    match tryFetchM env (icsCandidateUrl ⟨0, args.month, args.year⟩) with
    | (some s, a1) => (.ok s, acts0 ++ a1)
    | (none, a1) =>
      match tryFetchM env (icsCandidateUrl ⟨args.day, args.month, args.year⟩) with
      | (some s, a2) => (.ok s, acts0 ++ a1 ++ a2)
      | (none, a2) =>
        let acts1 := acts0 ++ a1 ++ a2 ++ [SyncAction.navigate einsatzplanIndexUrl]
        let fidx := env.finalUrl einsatzplanIndexUrl
        let htmlIndex := env.pageContent fidx
        let afterAny : Option String × List SyncAction :=
          match findAnyIcalUrlFromHtml env htmlIndex with
          | none => (none, [])
          | some dAny =>
            let rm := applyDateParams dAny ⟨0, args.month, args.year⟩
            match tryFetchM env rm with
            | (some s, b1) => (some s, b1)
            | (none, b1) =>
              let rd := applyDateParams dAny ⟨args.day, args.month, args.year⟩
              let r := tryFetchM env rd
              (r.1, b1 ++ r.2)
        match afterAny with
        | (some s, b) => (.ok s, acts1 ++ b)
        | (none, b) =>
          let acts2 := acts1 ++ b
          let afterLink : Option String × List SyncAction :=
            match findIcsExportUrlFromHtml env htmlIndex with
            | none => (none, [])
            | some d2 => tryFetchM env d2
          match afterLink with
          | (some s, c1) => (.ok s, acts2 ++ c1)
          | (none, c1) =>
            let acts3 := acts2 ++ c1 ++ [SyncAction.anchorScan fidx]
            match discoverIcsUrl env (env.anchorHrefs fidx) with
            | some dd =>
              let r := tryFetchM env dd
              match r with
              | (some s, d1) => (.ok s, acts3 ++ d1)
              | (none, d1) =>
                (.err "Sync fehlgeschlagen: iCal/ICS konnte nicht geladen werden." none,
                 acts3 ++ d1)
            | none =>
              (.err "Sync fehlgeschlagen: iCal/ICS konnte nicht geladen werden." none, acts3)

/-- `syncTrainexIcs`: validation, browser acquisition, login, then the
fallback chain.  The result is paired with the trace of browser/network
actions performed, in order. -/
def syncTrainexIcs (env : SyncEnv) (args : TrainexSyncArgs) :
    TrainexSyncResult × List SyncAction :=
  if args.username = "" ∨ args.password = "" then
    (.err "Bitte Login und Passwort eingeben." none, [])
  else if args.month < 1 ∨ args.month > 12 then
    (.err "Ungültiger Monat." none, [])
  else if ¬ env.executableExists ∧ ¬ env.isWin32 then
    (.err "Interner Browser fehlt (Playwright Chromium)." none, [])
  else
    let acts0 := [SyncAction.launch, SyncAction.navigate BASE_URL]
    if env.stillOnLoginPageAfterSubmit then
      (.err "Login fehlgeschlagen. Bitte Zugangsdaten prüfen." none, acts0)
    else
      let r := syncChain env args
      (r.1, acts0 ++ r.2)

/-! ## Specification-side definitions and proof scaffolding

`closedBlocks` and `emitBlock` give the block-level reading of the decoder
loop that the specification describes: the trimmed, non-empty content lines
between the most recent `BEGIN:VEVENT` and a matching `END:VEVENT`, and the
event (if any) one closed block contributes. -/

/-- The accumulated record of one block's content lines. -/
def blockAccum (env : DateEnv) (b : List String) : IcsCurrent :=
  b.foldl (applyContentLine env) {}

/-- The event one closed block contributes, if any. -/
def emitBlock (env : DateEnv) (b : List String) : Option TrainexEvent :=
  closeEvent env (blockAccum env b)

/-- The closed blocks of a line list: `acc` is the content of the open
block, if one is open.  A repeated `BEGIN:VEVENT` discards the open block's
content; an `END:VEVENT` outside a block is ignored. -/
def closedBlocks (acc : Option (List String)) : List String → List (List String)
  | [] => []
  | l :: ls =>
    let t := jsTrim l
    if t = "" then closedBlocks acc ls
    else if t = "BEGIN:VEVENT" then closedBlocks (some []) ls
    else if t = "END:VEVENT" then
      (match acc with
       | some b => [b]
       | none => []) ++ closedBlocks none ls
    else closedBlocks (acc.map (· ++ [t])) ls

/-- The open-block content after scanning a line list. -/
def accAfter (acc : Option (List String)) : List String → Option (List String)
  | [] => acc
  | l :: ls =>
    let t := jsTrim l
    if t = "" then accAfter acc ls
    else if t = "BEGIN:VEVENT" then accAfter (some []) ls
    else if t = "END:VEVENT" then accAfter none ls
    else accAfter (acc.map (· ++ [t])) ls

/-- The loop state corresponding to an open-block content value. -/
def stateOf (env : DateEnv) (acc : Option (List String)) (evs : List TrainexEvent) :
    IcsState :=
  match acc with
  | none => ⟨false, none, evs⟩
  | some b => ⟨true, some (blockAccum env b), evs⟩

/-- The rolling hash as §3 of the specification words it: starting from 0,
multiply by 31 and add each UTF-16 code unit, modulo 2^32. -/
def rollingHash (h : Nat) : List Nat → Nat
  | [] => h
  | u :: us => rollingHash ((31 * h + u) % 4294967296) us

/-- The id fingerprint as the specification words it. -/
def makeIdSpec (summary startIso endIso location : String) : String :=
  "evt_" ++ String.mk (Nat.toDigits 16
    (rollingHash 0 (utf16Units (summary ++ "|" ++ startIso ++ "|" ++ endIso ++ "|" ++ location))))

/-- The Byte Sniffer as the specification words it: the ASCII decoding
contains the marker, or the buffer opens with the UTF-16LE BOM and its
UTF-16LE decoding contains the marker, or it opens with the UTF-16BE BOM
and the byte-swapped decoding of the rest contains the marker. -/
def looksLikeIcsSpec (body : List Nat) : Bool :=
  isIcsBytes body ||
  (hasPrefixN [255, 254] body && containsMarker (u16le body)) ||
  (hasPrefixN [254, 255] body && containsMarker (u16be (body.drop 2)))

/-- An 8-digit date value (the claim's first timestamp shape). -/
def shape8 (l : List Char) : Bool := l.length = 8 && l.all isAsciiDigit

/-- A 15-character `YYYYMMDDThhmmss` value (the claim's date-time shape). -/
def shape15 (l : List Char) : Bool :=
  l.length = 15 && (l.take 8).all isAsciiDigit && (l.drop 8).head? = some 'T' &&
    (l.drop 9).all isAsciiDigit

/-- The value with one trailing `Z` stripped, as the decoder strips it. -/
def stripZ (dt : String) : List Char :=
  if endsWithZ dt then dt.data.dropLast else dt.data

/-- The year/month-index/day/hour/minute/second fields the decoder reads
from a digit shape. -/
def dtY (l : List Char) : Int := digitsToNat (l.take 4)
def dtMIdx (l : List Char) : Int := (digitsToNat ((l.drop 4).take 2) : Int) - 1
def dtD (l : List Char) : Int := digitsToNat ((l.drop 6).take 2)
def dtH (l : List Char) : Int := digitsToNat ((l.drop 9).take 2)
def dtMin (l : List Char) : Int := digitsToNat ((l.drop 11).take 2)
def dtS (l : List Char) : Int := digitsToNat ((l.drop 13).take 2)

/-- A canonically written duration string
`P[dD][T[hH][mM][sS]]` built from optional digit runs. -/
def durPart (o : Option (List Char)) (letter : Char) : List Char :=
  match o with
  | some ds => ds ++ [letter]
  | none => []

def durStr (dD : Option (List Char)) (t : Bool) (dH dM dS : Option (List Char)) : String :=
  ⟨'P' :: (durPart dD 'D' ++ if t then 'T' :: (durPart dH 'H' ++ durPart dM 'M' ++ durPart dS 'S') else [])⟩

/-- A well-formed optional digit run: absent, or non-empty and all ASCII
digits. -/
def goodDigits (o : Option (List Char)) : Prop :=
  ∀ ds, o = some ds → ds ≠ [] ∧ ds.all isAsciiDigit = true

/-- The numeric value of an optional digit run. -/
def durVal (o : Option (List Char)) : Nat := (o.map digitsToNat).getD 0

/-- A concrete `DateEnv` whose functions are injective renderings, used to
instantiate environment-quantified theorems at checkable inputs. -/
def mockDateEnv : DateEnv where
  localToIso := fun y m d hh mm ss =>
    "L" ++ toString y ++ "." ++ toString m ++ "." ++ toString d ++ "." ++
      toString hh ++ "." ++ toString mm ++ "." ++ toString ss
  utcToIso := fun y m d hh mm ss =>
    "U" ++ toString y ++ "." ++ toString m ++ "." ++ toString d ++ "." ++
      toString hh ++ "." ++ toString mm ++ "." ++ toString ss
  parseMs := fun s =>
    match s.data with
    | 'L' :: _ => some 1000
    | _ => none
  isoOfMs := fun n => "ISO" ++ toString n
  localeCompare := fun a b => if a < b then -1 else if a = b then 0 else 1

/-- The UTF-16LE buffer of the byte-sniffing test: BOM `FF FE` followed by
the marker's code units in little-endian pairs. -/
def c6Buf : List Nat :=
  255 :: 254 :: ("BEGIN:VCALENDAR".data.map fun c => [c.toNat, 0]).flatten

/-- The event block of the duration-fallback instance. -/
def c2Text : String :=
  "BEGIN:VEVENT\nSUMMARY:X\nDTSTART:20260105T080000\nDURATION:PT1H30M\nEND:VEVENT"

/-- An unclosed event block with a summary and a start. -/
def c10Text : String := "BEGIN:VEVENT\nSUMMARY:X\nDTSTART:20260105T080000"

/-- The event the duration-fallback instance must produce: its end is the
instant 5 400 000 ms (90 minutes) after the decoded start instant `tv`. -/
def c2Event (env : DateEnv) (tv : Int) : TrainexEvent :=
  { id := makeId "X" (env.localToIso 2026 0 5 8 0 0) (env.isoOfMs (tv + 5400000)) ""
    summary := "X"
    start := env.localToIso 2026 0 5 8 0 0
    stop := env.isoOfMs (tv + 5400000)
    location := none
    description := none
    categories := none }

/-- A concrete `SyncEnv` for validation witnesses: a portal that issues a
session token on the first bootstrap page and serves calendar bytes at the
tokenized month URL. -/
def c8TokUrl : String :=
  buildTokenizedIcalUrl [("TokCF1", "tok")] ⟨0, 5, 2026⟩

def c8Body : List Nat := "BEGIN:VCALENDAR END:VCALENDAR".data.map Char.toNat

def mockSyncEnv : SyncEnv where
  executableExists := true
  isWin32 := false
  stillOnLoginPageAfterSubmit := false
  finalUrl := fun u => if u = bootstrapUrl1 then u ++ "?TokCF1=tok" else u
  pageContent := fun _ => ""
  anchorHrefs := fun _ => []
  fetchBody := fun u => if u = c8TokUrl then some c8Body else none
  resolveRelativeUrl := fun s => BASE_URL ++ s

/-- The arguments of the orchestrator witnesses. -/
def c8Args : TrainexSyncArgs :=
  { username := "user", password := "pw", month := 5, year := 2026, day := 12 }

/-! ## Helper lemmas -/

theorem foldl_hashStep_eq_rollingHash : ∀ (l : List Nat) (h : Nat),
    l.foldl hashStep h = rollingHash h l
  | [], _ => rfl
  | u :: us, h => by
    simp only [List.foldl_cons, rollingHash, hashStep, Nat.mul_comm]
    exact foldl_hashStep_eq_rollingHash us _

theorem hasPrefixN_length : ∀ {pat l : List Nat}, hasPrefixN pat l = true →
    pat.length ≤ l.length
  | [], _, _ => by simp
  | _ :: _, [], h => by simp [hasPrefixN] at h
  | p :: ps, x :: xs, h => by
    simp only [hasPrefixN, Bool.and_eq_true] at h
    simpa using Nat.succ_le_succ (hasPrefixN_length h.2)

theorem containsSeq_length : ∀ {pat l : List Nat}, containsSeq pat l = true →
    pat.length ≤ l.length
  | pat, [], h => by
    simp only [containsSeq] at h
    exact hasPrefixN_length h
  | pat, x :: xs, h => by
    simp only [containsSeq, Bool.or_eq_true] at h
    rcases h with h | h
    · exact hasPrefixN_length h
    · exact Nat.le_trans (containsSeq_length h) (by simp)

theorem containsMarker_false_of_short {units : List Nat} (h : units.length < 15) :
    containsMarker units = false := by
  by_contra hc
  have ht : containsMarker units = true := by
    cases hcm : containsMarker units with
    | false => exact absurd hcm hc
    | true => rfl
  have := @containsSeq_length (markerUnits.map asciiUpperUnit)
    (units.map asciiUpperUnit) ht
  simp only [List.length_map] at this
  have hm : (markerUnits.map asciiUpperUnit).length = 15 := by decide
  simp only [List.length_map] at hm
  omega

theorem u16le_length : ∀ (l : List Nat), (u16le l).length = l.length / 2
  | [] => rfl
  | [_] => by simp [u16le]
  | _ :: _ :: r => by
    simp only [u16le, List.length_cons, u16le_length r]
    omega

theorem u16be_length : ∀ (l : List Nat), (u16be l).length = l.length / 2
  | [] => rfl
  | [_] => by simp [u16be]
  | _ :: _ :: r => by
    simp only [u16be, List.length_cons, u16be_length r]
    omega

theorem natBeq_comm (x y : Nat) : (x == y) = (y == x) := by
  by_cases h : x = y
  · simp [h]
  · rw [beq_eq_false_iff_ne.mpr h, beq_eq_false_iff_ne.mpr fun hyx => h hyx.symm]

theorem isUtf16Le_eq_hasPrefixN : ∀ l : List Nat, isUtf16Le l = hasPrefixN [255, 254] l
  | [] => rfl
  | [_] => by simp [isUtf16Le, hasPrefixN]
  | a :: b :: t => by
    simp only [isUtf16Le, hasPrefixN, Bool.and_true, natBeq_comm]

theorem isUtf16Be_eq_hasPrefixN : ∀ l : List Nat, isUtf16Be l = hasPrefixN [254, 255] l
  | [] => rfl
  | [_] => by simp [isUtf16Be, hasPrefixN]
  | a :: b :: t => by
    simp only [isUtf16Be, hasPrefixN, Bool.and_true, natBeq_comm]

theorem isUtf16_mutex : ∀ l : List Nat, isUtf16Le l = true → isUtf16Be l = false
  | [] => by simp [isUtf16Le]
  | [_] => by simp [isUtf16Le]
  | a :: b :: t => by
    simp only [isUtf16Le, isUtf16Be, Bool.and_eq_true, beq_iff_eq, Bool.and_eq_false_iff]
    intro h
    simp [h.1]

/-! ## Claim theorems -/

/-- C3 (counterexample): changing the summary field from `Aa` to `BB` does
not change the id — the 31-ary rolling hash collides on these strings, so
the claim's change-any-one-field clause fails. -/
theorem makeId_summary_change_collides :
    makeId "Aa" "" "" "" = makeId "BB" "" "" "" ∧ ("Aa" : String) ≠ "BB" := by
  constructor
  · rfl
  · decide

/-- C3 (amended): fingerprinting the same tuple twice yields the same id,
and the id is exactly the 32-bit multiply-by-31-and-add rolling hash over
the UTF-16 code units of `summary|start|end|location`, rendered as
hexadecimal behind `evt_`; distinct tuples may collide. -/
theorem makeId_deterministic_and_matches_spec :
    ∀ s a b c : String, makeId s a b c = makeId s a b c ∧ makeId s a b c = makeIdSpec s a b c := by
  intro s a b c
  refine ⟨rfl, ?_⟩
  simp only [makeId, makeIdSpec, foldl_hashStep_eq_rollingHash]

/-- C6: the Byte Sniffer accepts exactly the buffers described by the
spec's three ordered checks, and the concrete UTF-16LE buffer (BOM `FF FE`
plus the UTF-16LE marker) is accepted although its ASCII reading does not
contain the marker. -/
theorem looksLikeIcs_iff_spec :
    (∀ (body : List Nat) (headers : List (String × String)),
      looksLikeIcs body headers = looksLikeIcsSpec body) ∧
    looksLikeIcs c6Buf [] = true ∧ isIcsBytes c6Buf = false := by
  refine ⟨?_, by decide, by decide⟩
  intro body headers
  by_cases hlen : body.length < 4
  · have h1 : containsMarker (u16le body) = false :=
      containsMarker_false_of_short (by rw [u16le_length]; omega)
    have h2 : containsMarker (u16be (body.drop 2)) = false :=
      containsMarker_false_of_short (by rw [u16be_length, List.length_drop]; omega)
    simp [looksLikeIcs, looksLikeIcsSpec, hasUtf16VCalendar, hlen, h1, h2]
  · simp only [looksLikeIcs, looksLikeIcsSpec, hasUtf16VCalendar]
    rw [if_neg hlen, ← isUtf16Le_eq_hasPrefixN, ← isUtf16Be_eq_hasPrefixN]
    cases hle : isUtf16Le body
    · cases hbe : isUtf16Be body <;> simp [hbe]
    · simp [isUtf16_mutex body hle]

/-- C7: an empty username, an empty password, or a month outside 1..12
makes the retrieval return a validation failure with an empty action
trace — no browser launch, navigation or fetch happens. -/
theorem retrieval_validation_before_io (env : SyncEnv) (args : TrainexSyncArgs)
    (h : args.username = "" ∨ args.password = "" ∨ args.month < 1 ∨ args.month > 12) :
    (syncTrainexIcs env args).2 = [] ∧
      ((syncTrainexIcs env args).1 = .err "Bitte Login und Passwort eingeben." none ∨
        (syncTrainexIcs env args).1 = .err "Ungültiger Monat." none) := by
  by_cases h1 : args.username = "" ∨ args.password = ""
  · simp [syncTrainexIcs, h1]
  · have h2 : args.month < 1 ∨ args.month > 12 := by tauto
    simp [syncTrainexIcs, h1, h2]

/-- C7 (witness): a request with month 0 is rejected with no activity. -/
theorem retrieval_validation_before_io_witness :
    (syncTrainexIcs mockSyncEnv
        { username := "u", password := "p", month := 0, year := 2026, day := 5 }).2 = [] ∧
      ((syncTrainexIcs mockSyncEnv
          { username := "u", password := "p", month := 0, year := 2026, day := 5 }).1 =
        .err "Bitte Login und Passwort eingeben." none ∨
        (syncTrainexIcs mockSyncEnv
          { username := "u", password := "p", month := 0, year := 2026, day := 5 }).1 =
        .err "Ungültiger Monat." none) :=
  retrieval_validation_before_io mockSyncEnv
    { username := "u", password := "p", month := 0, year := 2026, day := 5 }
    (Or.inr (Or.inr (Or.inl (by decide))))

/-- The value set by `searchParams.set` is the value looked up. -/
theorem urlParamsSet_lookup : ∀ (ps : List (String × String)) (k v : String),
    (urlParamsSet ps k v).lookup k = some v
  | [], k, v => by simp [urlParamsSet, List.lookup]
  | (k1, v1) :: rest, k, v => by
    by_cases hk : k1 = k
    · simp [urlParamsSet, hk, List.lookup]
    · have hne : (k == k1) = false := by
        simp only [beq_eq_false_iff_ne, ne_eq]
        exact fun hkk => hk hkk.symm
      simp [urlParamsSet, hk, List.lookup, hne, urlParamsSet_lookup rest k v]

/-- C9: the day argument is never validated — every non-positive day
yields an empty `utag` (the whole-month query), every positive day
(including values above 31) is stamped into the constructed export URLs
unchanged, and whether retrieval fails fast with no browser/network
activity does not depend on the day at all. -/
theorem day_argument_never_validated :
    (∀ d : Int, d ≤ 0 → utagOf d = "") ∧
    (∀ d : Int, 0 < d → utagOf d = toString d) ∧
    (∀ d m y : Int, d ≤ 0 → icsCandidateUrl ⟨d, m, y⟩ = icsCandidateUrl ⟨0, m, y⟩) ∧
    (∀ (ps : List (String × String)) (args : DateArgs),
      (setDateParams ps args).lookup "utag" = some (utagOf args.day)) ∧
    (∀ (toks : List (String × String)) (args : DateArgs),
      (buildTokenizedParams toks args).lookup "utag" = some (utagOf args.day)) ∧
    (∀ (env : SyncEnv) (a : TrainexSyncArgs) (d d' : Int),
      ((syncTrainexIcs env { a with day := d }).2 = [] ↔
        (syncTrainexIcs env { a with day := d' }).2 = []) ∧
      ((syncTrainexIcs env { a with day := d }).2 = [] →
        (syncTrainexIcs env { a with day := d }).1 =
          (syncTrainexIcs env { a with day := d' }).1)) := by
  refine ⟨?_, ?_, ?_, ?_, ?_, ?_⟩
  · intro d hd
    simp [utagOf, not_lt.mpr hd]
  · intro d hd
    simp [utagOf, hd]
  · intro d m y hd
    simp [icsCandidateUrl, utagOf, not_lt.mpr hd]
  · intro ps args
    exact urlParamsSet_lookup _ "utag" _
  · intro toks args
    exact urlParamsSet_lookup _ "utag" _
  · intro env a d d'
    by_cases h1 : a.username = "" ∨ a.password = ""
    · simp [syncTrainexIcs, h1]
    · by_cases h2 : a.month < 1 ∨ a.month > 12
      · simp [syncTrainexIcs, h1, h2]
      · by_cases h3 : env.executableExists = false ∧ env.isWin32 = false
        · simp [syncTrainexIcs, h1, h2, h3]
        · by_cases h4 : env.stillOnLoginPageAfterSubmit = true <;>
            simp [syncTrainexIcs, h1, h2, h3, h4]

/-- C8: when the first bootstrap navigation yields session tokens and the
token-based month fetch succeeds, the retrieval returns that payload and
the whole action trace is launch, the login navigation, the one bootstrap
navigation and the one fetch — no direct-construction fetch, no index
navigation and no DOM anchor scan ever happens. -/
theorem bootstrap_token_fetch_short_circuits (env : SyncEnv) (args : TrainexSyncArgs)
    (s : String)
    (h1 : ¬(args.username = "" ∨ args.password = ""))
    (h2 : ¬(args.month < 1 ∨ args.month > 12))
    (h3 : env.executableExists = true)
    (h4 : env.stillOnLoginPageAfterSubmit = false)
    (h5 : extractSessionTokenParams (env.finalUrl bootstrapUrl1) ≠ [])
    (h6 : (tryFetchM env (buildTokenizedIcalUrl
        (extractSessionTokenParams (env.finalUrl bootstrapUrl1))
        ⟨0, args.month, args.year⟩)).1 = some s) :
    syncTrainexIcs env args =
      (.ok s,
        [SyncAction.launch, SyncAction.navigate BASE_URL, SyncAction.navigate bootstrapUrl1,
         SyncAction.fetchGet (buildTokenizedIcalUrl
           (extractSessionTokenParams (env.finalUrl bootstrapUrl1))
           ⟨0, args.month, args.year⟩)]) := by
  have htf : tryFetchM env (buildTokenizedIcalUrl
      (extractSessionTokenParams (env.finalUrl bootstrapUrl1)) ⟨0, args.month, args.year⟩) =
      (some s, [SyncAction.fetchGet (buildTokenizedIcalUrl
        (extractSessionTokenParams (env.finalUrl bootstrapUrl1))
        ⟨0, args.month, args.year⟩)]) := by
    rw [← h6]
    rfl
  simp [syncTrainexIcs, h1, h2, h3, h4, syncChain, tokenBootstrapUrls, bootstrapChain,
    bootstrapStep, h5, htf]

/-- C8 (witness): a mock portal issuing a `TokCF1` token on the first
bootstrap page and serving calendar bytes at the tokenized month URL makes
the retrieval succeed with exactly the four-step trace. -/
theorem bootstrap_token_fetch_short_circuits_witness :
    syncTrainexIcs mockSyncEnv c8Args =
      (.ok (toBase64 c8Body),
        [SyncAction.launch, SyncAction.navigate BASE_URL, SyncAction.navigate bootstrapUrl1,
         SyncAction.fetchGet (buildTokenizedIcalUrl
           (extractSessionTokenParams (mockSyncEnv.finalUrl bootstrapUrl1))
           ⟨0, c8Args.month, c8Args.year⟩)]) :=
  bootstrap_token_fetch_short_circuits mockSyncEnv c8Args (toBase64 c8Body)
    (by decide) (by decide) (by decide) (by decide) (by decide) (by decide)

/-- The decoder loop, started in the state corresponding to an open-block
content value, produces exactly the events of the closed blocks. -/
theorem foldl_icsStep_spec (env : DateEnv) : ∀ (ls : List String)
    (acc : Option (List String)) (evs : List TrainexEvent),
    (ls.foldl (icsStep env) (stateOf env acc evs)).events
      = evs ++ (closedBlocks acc ls).filterMap (emitBlock env)
  | [], acc, evs => by cases acc <;> simp [stateOf, closedBlocks]
  | l :: ls, acc, evs => by
    by_cases h0 : jsTrim l = ""
    · have hstep : icsStep env (stateOf env acc evs) l = stateOf env acc evs := by
        cases acc <;> simp [icsStep, stateOf, h0]
      rw [List.foldl_cons, hstep, foldl_icsStep_spec env ls acc evs]
      simp [closedBlocks, h0]
    · by_cases hb : jsTrim l = "BEGIN:VEVENT"
      · have hstep : icsStep env (stateOf env acc evs) l = stateOf env (some []) evs := by
          cases acc <;> simp [icsStep, stateOf, h0, hb, blockAccum]
        rw [List.foldl_cons, hstep, foldl_icsStep_spec env ls (some []) evs]
        simp [closedBlocks, h0, hb]
      · by_cases he : jsTrim l = "END:VEVENT"
        · cases acc with
          | none =>
            have hstep : icsStep env (stateOf env none evs) l = stateOf env none evs := by
              simp [icsStep, stateOf, h0, hb, he]
            rw [List.foldl_cons, hstep, foldl_icsStep_spec env ls none evs]
            simp [closedBlocks, h0, hb, he]
          | some b =>
            have hstep : icsStep env (stateOf env (some b) evs) l
                = stateOf env none (evs ++ (emitBlock env b).toList) := by
              simp [icsStep, stateOf, h0, hb, he, emitBlock]
            rw [List.foldl_cons, hstep, foldl_icsStep_spec env ls none _]
            rw [show closedBlocks (some b) (l :: ls)
                = [b] ++ closedBlocks none ls by simp [closedBlocks, h0, hb, he]]
            cases hemit : emitBlock env b <;> simp [hemit]
        · cases acc with
          | none =>
            have hstep : icsStep env (stateOf env none evs) l = stateOf env none evs := by
              simp [icsStep, stateOf, h0, hb, he]
            rw [List.foldl_cons, hstep, foldl_icsStep_spec env ls none evs]
            simp [closedBlocks, h0, hb, he]
          | some b =>
            have hstep : icsStep env (stateOf env (some b) evs) l
                = stateOf env (some (b ++ [jsTrim l])) evs := by
              simp [icsStep, stateOf, h0, hb, he, blockAccum, List.foldl_append]
            rw [List.foldl_cons, hstep, foldl_icsStep_spec env ls _ evs]
            simp [closedBlocks, h0, hb, he]

/-- The decoder loop over a whole line list equals the block-level
reading. -/
theorem processLines_eq_blocks (env : DateEnv) (lines : List String) :
    processLines env lines = (closedBlocks none lines).filterMap (emitBlock env) := by
  simpa [processLines, stateOf] using foldl_icsStep_spec env lines none []

/-- C1: the decoded output is the sorted list of the events contributed by
the closed event blocks, one block at a time (so one malformed block cannot
affect its siblings), and a closed block contributes an event exactly when
its accumulated summary and start are non-empty after trimming. -/
theorem decoder_emits_iff_summary_and_start :
    (∀ (env : DateEnv) (text : String),
      parseIcsToEvents env text =
        jsSortEvents env ((closedBlocks none (icsLines text)).filterMap (emitBlock env))) ∧
    (∀ (env : DateEnv) (b : List String),
      (emitBlock env b).isSome ↔
        (jsTrim ((blockAccum env b).summary.getD "") ≠ "" ∧
         jsTrim ((blockAccum env b).start.getD "") ≠ "")) := by
  constructor
  · intro env text
    rw [parseIcsToEvents, processLines_eq_blocks]
  · intro env b
    simp only [emitBlock, closeEvent]
    split_ifs with h <;> simp_all

theorem closedBlocks_append : ∀ (xs : List String) (acc : Option (List String))
    (ys : List String),
    closedBlocks acc (xs ++ ys) = closedBlocks acc xs ++ closedBlocks (accAfter acc xs) ys
  | [], acc, ys => by simp [closedBlocks, accAfter]
  | l :: xs, acc, ys => by
    by_cases h0 : jsTrim l = ""
    · simp [closedBlocks, accAfter, h0, closedBlocks_append xs]
    · by_cases hb : jsTrim l = "BEGIN:VEVENT"
      · simp [closedBlocks, accAfter, h0, hb, closedBlocks_append xs]
      · by_cases he : jsTrim l = "END:VEVENT"
        · cases acc <;> simp [closedBlocks, accAfter, h0, hb, he, closedBlocks_append xs]
        · simp [closedBlocks, accAfter, h0, hb, he, closedBlocks_append xs]

theorem closedBlocks_no_end : ∀ (content : List String) (acc : Option (List String)),
    (∀ l ∈ content, jsTrim l ≠ "END:VEVENT") → closedBlocks acc content = []
  | [], _, _ => rfl
  | l :: content, acc, h => by
    have hl := h l (by simp)
    have hrest : ∀ x ∈ content, jsTrim x ≠ "END:VEVENT" := fun x hx => h x (by simp [hx])
    by_cases h0 : jsTrim l = ""
    · simp [closedBlocks, h0, closedBlocks_no_end content _ hrest]
    · by_cases hb : jsTrim l = "BEGIN:VEVENT"
      · simp [closedBlocks, h0, hb, closedBlocks_no_end content _ hrest]
      · simp [closedBlocks, h0, hb, hl, closedBlocks_no_end content _ hrest]

/-- C10: a block opened by `BEGIN:VEVENT` whose following lines never
contain `END:VEVENT` emits nothing — the decode of the whole text equals
the decode of the lines before the dangling `BEGIN:VEVENT`, whatever
summary or start the unclosed block accumulated. -/
theorem unclosed_block_emits_no_event (env : DateEnv) (text : String)
    (ls content : List String)
    (h : icsLines text = ls ++ "BEGIN:VEVENT" :: content)
    (hne : ∀ l ∈ content, jsTrim l ≠ "END:VEVENT") :
    parseIcsToEvents env text = jsSortEvents env (processLines env ls) := by
  rw [parseIcsToEvents, processLines_eq_blocks, processLines_eq_blocks, h]
  have hblocks : closedBlocks none (ls ++ "BEGIN:VEVENT" :: content) = closedBlocks none ls := by
    rw [show ("BEGIN:VEVENT" :: content : List String) = ["BEGIN:VEVENT"] ++ content from rfl,
        ← List.append_assoc, closedBlocks_append, closedBlocks_append]
    have h1 : closedBlocks (accAfter none ls) ["BEGIN:VEVENT"] = [] := by
      have ht : jsTrim "BEGIN:VEVENT" = "BEGIN:VEVENT" := by decide
      simp [closedBlocks, ht]
    rw [h1, closedBlocks_no_end content _ hne]
    simp
  rw [hblocks]

/-- C10 (witness): a truncated input consisting of one unclosed block with
a summary and a start decodes to the decode of the empty prefix. -/
theorem unclosed_block_emits_no_event_witness :
    parseIcsToEvents mockDateEnv c10Text = jsSortEvents mockDateEnv (processLines mockDateEnv []) :=
  unclosed_block_emits_no_event mockDateEnv c10Text []
    ["SUMMARY:X", "DTSTART:20260105T080000"] (by decide) (by decide)

theorem mem_insertRight (cmp : TrainexEvent → TrainexEvent → Int) (x : TrainexEvent) :
    ∀ (l : List TrainexEvent) (a : TrainexEvent),
    a ∈ insertRight cmp x l ↔ a = x ∨ a ∈ l
  | [], a => by simp [insertRight]
  | y :: ys, a => by
    by_cases hc : cmp x y < 0
    · simp [insertRight, hc]
      try tauto
    · simp [insertRight, hc, mem_insertRight cmp x ys a]
      tauto

theorem sorted_insertRight (env : DateEnv)
    (hlt : ∀ a b : String, env.localeCompare a b < 0 ↔ a < b) (x : TrainexEvent) :
    ∀ (l : List TrainexEvent),
    l.Sorted (fun a b => a.start ≤ b.start) →
    (insertRight (fun a b => env.localeCompare a.start b.start) x l).Sorted
      (fun a b => a.start ≤ b.start)
  | [], _ => by simp [insertRight]
  | y :: ys, hs => by
    rw [List.sorted_cons] at hs
    by_cases hc : env.localeCompare x.start y.start < 0
    · have hxy : x.start < y.start := (hlt _ _).mp hc
      simp only [insertRight, if_pos hc, List.sorted_cons]
      refine ⟨?_, hs.1, hs.2⟩
      intro b hb
      rcases List.mem_cons.mp hb with rfl | hb
      · exact le_of_lt hxy
      · exact le_trans (le_of_lt hxy) (hs.1 b hb)
    · have hyx : y.start ≤ x.start := by
        have hn : ¬ x.start < y.start := fun hl => hc ((hlt _ _).mpr hl)
        exact le_of_not_lt hn
      simp only [insertRight, if_neg hc, List.sorted_cons]
      constructor
      · intro b hb
        rcases (mem_insertRight _ x ys b).mp hb with rfl | hb
        · exact hyx
        · exact hs.1 b hb
      · exact sorted_insertRight env hlt x ys hs.2

theorem sorted_foldl_insertRight (env : DateEnv)
    (hlt : ∀ a b : String, env.localeCompare a b < 0 ↔ a < b) :
    ∀ (l acc : List TrainexEvent),
    acc.Sorted (fun a b => a.start ≤ b.start) →
    (l.foldl (fun acc x => insertRight (fun a b => env.localeCompare a.start b.start) x acc)
        acc).Sorted (fun a b => a.start ≤ b.start)
  | [], _, h => h
  | x :: l, acc, h =>
    sorted_foldl_insertRight env hlt l _ (sorted_insertRight env hlt x acc h)

/-- C5: whenever the locale comparator realizes the lexicographic string
order, the decoded event list is sorted ascending by the start string,
whatever the order of the blocks in the input. -/
theorem decoder_output_sorted_by_start (env : DateEnv) (text : String)
    (hlt : ∀ a b : String, env.localeCompare a b < 0 ↔ a < b) :
    (parseIcsToEvents env text).Sorted (fun a b => a.start ≤ b.start) :=
  sorted_foldl_insertRight env hlt _ [] (by simp)

/-- C5 (witness): with a comparator that realizes the lexicographic order,
a two-block input given in reverse start order decodes sorted. -/
theorem decoder_output_sorted_by_start_witness :
    (parseIcsToEvents mockDateEnv
      "BEGIN:VEVENT\nSUMMARY:B\nDTSTART:20260106\nEND:VEVENT\nBEGIN:VEVENT\nSUMMARY:A\nDTSTART:20260105\nEND:VEVENT").Sorted
      (fun a b => a.start ≤ b.start) :=
  decoder_output_sorted_by_start mockDateEnv _ (by
    intro a b
    have heq : mockDateEnv.localeCompare a b
        = if a < b then -1 else if a = b then 0 else 1 := rfl
    rw [heq]
    by_cases h1 : a < b
    · rw [if_pos h1]
      simp [h1]
    · by_cases h2 : a = b
      · rw [if_neg h1, if_pos h2]
        simp [h1]
      · rw [if_neg h1, if_neg h2]
        simp [h1])

/-- `icsDateToIso` written with the shape tests and field readers named. -/
theorem icsDateToIso_eq_ite (env : DateEnv) (dt : String) :
    icsDateToIso env dt =
      if (stripZ dt).length = 8 ∧ (stripZ dt).all isAsciiDigit then
        env.localToIso (dtY (stripZ dt)) (dtMIdx (stripZ dt)) (dtD (stripZ dt)) 0 0 0
      else if (stripZ dt).length = 15 ∧ ((stripZ dt).take 8).all isAsciiDigit ∧
          (stripZ dt).drop 8 ≠ [] ∧ ((stripZ dt).drop 8).head? = some 'T' ∧
          ((stripZ dt).drop 9).all isAsciiDigit then
        if endsWithZ dt then
          env.utcToIso (dtY (stripZ dt)) (dtMIdx (stripZ dt)) (dtD (stripZ dt))
            (dtH (stripZ dt)) (dtMin (stripZ dt)) (dtS (stripZ dt))
        else
          env.localToIso (dtY (stripZ dt)) (dtMIdx (stripZ dt)) (dtD (stripZ dt))
            (dtH (stripZ dt)) (dtMin (stripZ dt)) (dtS (stripZ dt))
      else dt := rfl

theorem shape15_iff (l : List Char) : shape15 l = true ↔
    (l.length = 15 ∧ (l.take 8).all isAsciiDigit ∧ l.drop 8 ≠ [] ∧
      (l.drop 8).head? = some 'T' ∧ (l.drop 9).all isAsciiDigit) := by
  simp only [shape15, Bool.and_eq_true, decide_eq_true_eq]
  constructor
  · rintro ⟨⟨⟨h1, h2⟩, h3⟩, h4⟩
    refine ⟨h1, h2, ?_, h3, h4⟩
    intro hnil
    have h7 : (l.drop 8).length = 7 := by simp [h1]
    simp [hnil] at h7
  · rintro ⟨h1, h2, _, h3, h4⟩
    exact ⟨⟨⟨h1, h2⟩, h3⟩, h4⟩

/-- C4 (counterexample): `"20260105Z"` is none of the claim's three shapes
(it is 9 characters), yet the decoder does not pass it through — the
trailing `Z` is stripped first and the 8-digit rest decodes to local
midnight. -/
theorem icsDateToIso_z_suffixed_date_not_passed_through :
    shape8 "20260105Z".data = false ∧
    shape15 "20260105Z".data = false ∧
    (shape15 ("20260105Z".data.dropLast) && "20260105Z".data.length == 16) = false ∧
    icsDateToIso mockDateEnv "20260105Z" = "L2026.0.5.0.0.0" ∧
    icsDateToIso mockDateEnv "20260105Z" ≠ "20260105Z" := by decide

/-- C4 (amended): the decoder first strips one trailing `Z` when present;
an 8-digit remainder decodes to local midnight of that date (whether or
not a `Z` was stripped), a `YYYYMMDDThhmmss` remainder decodes to that UTC
instant when the `Z` was present and to the same local wall-clock time
otherwise, and any other remainder makes the original value — `Z`
included — come back unmodified, never an error. -/
theorem timestamp_decoder_shapes (env : DateEnv) (dt : String) :
    (shape8 (stripZ dt) = true →
      icsDateToIso env dt =
        env.localToIso (dtY (stripZ dt)) (dtMIdx (stripZ dt)) (dtD (stripZ dt)) 0 0 0) ∧
    (shape15 (stripZ dt) = true →
      icsDateToIso env dt =
        if endsWithZ dt then
          env.utcToIso (dtY (stripZ dt)) (dtMIdx (stripZ dt)) (dtD (stripZ dt))
            (dtH (stripZ dt)) (dtMin (stripZ dt)) (dtS (stripZ dt))
        else
          env.localToIso (dtY (stripZ dt)) (dtMIdx (stripZ dt)) (dtD (stripZ dt))
            (dtH (stripZ dt)) (dtMin (stripZ dt)) (dtS (stripZ dt))) ∧
    (shape8 (stripZ dt) = false → shape15 (stripZ dt) = false →
      icsDateToIso env dt = dt) := by
  refine ⟨?_, ?_, ?_⟩
  · intro h8
    have hc : (stripZ dt).length = 8 ∧ (stripZ dt).all isAsciiDigit := by
      simpa [shape8] using h8
    rw [icsDateToIso_eq_ite, if_pos hc]
  · intro h15
    have hc := (shape15_iff _).mp h15
    have hlen := hc.1
    rw [icsDateToIso_eq_ite, if_neg (fun hc8 => by omega), if_pos hc]
  · intro h8 h15
    rw [icsDateToIso_eq_ite, if_neg, if_neg]
    · intro hc
      rw [(shape15_iff _).mpr hc] at h15
      exact absurd h15 (by simp)
    · intro hc
      have ht : shape8 (stripZ dt) = true := by simp [shape8, hc.1, hc.2]
      rw [ht] at h8
      exact absurd h8 (by simp)

/-- C4 (witness for the amended statement): the three sample decodes of
the specification, under the mock date environment. -/
theorem timestamp_decoder_shapes_witness :
    icsDateToIso mockDateEnv "20260105" = mockDateEnv.localToIso 2026 0 5 0 0 0 ∧
    icsDateToIso mockDateEnv "20260105T081500Z" = mockDateEnv.utcToIso 2026 0 5 8 15 0 ∧
    icsDateToIso mockDateEnv "20260105T081500" = mockDateEnv.localToIso 2026 0 5 8 15 0 ∧
    icsDateToIso mockDateEnv "garbage" = "garbage" := by
  refine ⟨?_, ?_, ?_, ?_⟩
  · have h := (timestamp_decoder_shapes mockDateEnv "20260105").1 (by decide)
    rw [h]
    decide
  · have h := (timestamp_decoder_shapes mockDateEnv "20260105T081500Z").2.1 (by decide)
    rw [h]
    decide
  · have h := (timestamp_decoder_shapes mockDateEnv "20260105T081500").2.1 (by decide)
    rw [h]
    decide
  · exact (timestamp_decoder_shapes mockDateEnv "garbage").2.2 (by decide) (by decide)

/-- Characters in the band 48..90 (digits and upper-case letters) are not
whitespace and are fixed by ASCII upper-casing. -/
theorem durChar_fixed (c : Char) (h1 : 48 ≤ c.toNat) (h2 : c.toNat ≤ 90) :
    isJsWs c = false ∧ asciiUpper c = c := by
  constructor
  · simp only [isJsWs]
    simp only [Bool.or_eq_false_iff, beq_eq_false_iff_ne, ne_eq,
      Bool.and_eq_false_iff, decide_eq_false_iff_not, not_le]
    omega
  · rw [asciiUpper, if_neg (by omega)]

theorem dropWhile_eq_self_of_no_ws : ∀ (l : List Char),
    (∀ c ∈ l, isJsWs c = false) → l.dropWhile isJsWs = l
  | [], _ => rfl
  | c :: r, h => by
    simp [List.dropWhile_cons, h c (by simp)]

theorem jsTrim_eq_self {s : String} (h : ∀ c ∈ s.data, isJsWs c = false) :
    jsTrim s = s := by
  rw [jsTrim, dropWhile_eq_self_of_no_ws _ h,
    dropWhile_eq_self_of_no_ws _ (by intro c hc; exact h c (by simpa using hc)),
    List.reverse_reverse]

theorem asciiUpperStr_eq_self {s : String} (h : ∀ c ∈ s.data, asciiUpper c = c) :
    asciiUpperStr s = s := by
  rw [asciiUpperStr]
  have hm : s.data.map asciiUpper = s.data := by
    rw [List.map_congr_left h]
    exact List.map_id' s.data
  rw [hm]

theorem takeWhile_digits_append : ∀ (ds rest : List Char),
    ds.all isAsciiDigit = true →
    (∀ c, rest.head? = some c → isAsciiDigit c = false) →
    (ds ++ rest).takeWhile isAsciiDigit = ds
  | [], [], _, _ => rfl
  | [], c :: r, _, h2 => by simp [List.takeWhile_cons, h2 c rfl]
  | d :: ds, rest, h1, h2 => by
    simp only [List.all_cons, Bool.and_eq_true] at h1
    simp [List.takeWhile_cons, h1.1, takeWhile_digits_append ds rest h1.2 h2]

theorem dropWhile_digits_append : ∀ (ds rest : List Char),
    ds.all isAsciiDigit = true →
    (∀ c, rest.head? = some c → isAsciiDigit c = false) →
    (ds ++ rest).dropWhile isAsciiDigit = rest
  | [], [], _, _ => rfl
  | [], c :: r, _, h2 => by simp [List.dropWhile_cons, h2 c rfl]
  | d :: ds, rest, h1, h2 => by
    simp only [List.all_cons, Bool.and_eq_true] at h1
    simp [List.dropWhile_cons, h1.1, dropWhile_digits_append ds rest h1.2 h2]

theorem spanDigits_append (ds rest : List Char) (h1 : ds.all isAsciiDigit = true)
    (h2 : ∀ c, rest.head? = some c → isAsciiDigit c = false) :
    spanDigits (ds ++ rest) = (ds, rest) := by
  rw [spanDigits, takeWhile_digits_append ds rest h1 h2,
    dropWhile_digits_append ds rest h1 h2]

theorem durS_part (d h m : Nat) (dS : Option (List Char)) (gS : goodDigits dS) :
    durS d h m (durPart dS 'S') = some (msOf d h m (durVal dS)) := by
  cases dS with
  | none => rfl
  | some ds =>
    obtain ⟨hne, hdig⟩ := gS ds rfl
    have hsp := spanDigits_append ds ['S'] hdig
      (by intro c hc; simp at hc; subst hc; decide)
    simp [durPart, durS, hsp, hne, durVal]

theorem durM_part (d h : Nat) (dM dS : Option (List Char))
    (gM : goodDigits dM) (gS : goodDigits dS) :
    durM d h (durPart dM 'M' ++ durPart dS 'S')
      = some (msOf d h (durVal dM) (durVal dS)) := by
  cases dM with
  | some ds =>
    obtain ⟨hne, hdig⟩ := gM ds rfl
    have hsp : spanDigits (ds ++ ('M' :: durPart dS 'S')) = (ds, 'M' :: durPart dS 'S') :=
      spanDigits_append ds _ hdig (by intro c hc; simp at hc; subst hc; decide)
    have hl : durPart (some ds) 'M' ++ durPart dS 'S' = ds ++ ('M' :: durPart dS 'S') := by
      simp [durPart]
    rw [hl, durM]
    simp only [hsp, hne, ne_eq, not_false_eq_true, if_true]
    exact durS_part d h (digitsToNat ds) dS gS
  | none =>
    cases dS with
    | none => rfl
    | some ds2 =>
      obtain ⟨hne2, hdig2⟩ := gS ds2 rfl
      have hsp : spanDigits (ds2 ++ ['S']) = (ds2, ['S']) :=
        spanDigits_append ds2 _ hdig2 (by intro c hc; simp at hc; subst hc; decide)
      have hl : durPart (none : Option (List Char)) 'M' ++ durPart (some ds2) 'S'
          = ds2 ++ ['S'] := by simp [durPart]
      rw [hl, durM]
      simp only [hsp]
      have := durS_part d h 0 (some ds2) gS
      simpa [durPart, durVal] using this

theorem durH_part (d : Nat) (dH dM dS : Option (List Char))
    (gH : goodDigits dH) (gM : goodDigits dM) (gS : goodDigits dS) :
    durH d (durPart dH 'H' ++ (durPart dM 'M' ++ durPart dS 'S'))
      = some (msOf d (durVal dH) (durVal dM) (durVal dS)) := by
  cases dH with
  | some ds =>
    obtain ⟨hne, hdig⟩ := gH ds rfl
    have hsp : spanDigits (ds ++ ('H' :: (durPart dM 'M' ++ durPart dS 'S')))
        = (ds, 'H' :: (durPart dM 'M' ++ durPart dS 'S')) :=
      spanDigits_append ds _ hdig (by intro c hc; simp at hc; subst hc; decide)
    have hl : durPart (some ds) 'H' ++ (durPart dM 'M' ++ durPart dS 'S')
        = ds ++ ('H' :: (durPart dM 'M' ++ durPart dS 'S')) := by simp [durPart]
    rw [hl, durH]
    simp only [hsp, hne, ne_eq, not_false_eq_true, if_true]
    exact durM_part d (digitsToNat ds) dM dS gM gS
  | none =>
    have hfall : durH d (durPart dM 'M' ++ durPart dS 'S')
        = durM d 0 (durPart dM 'M' ++ durPart dS 'S') := by
      cases dM with
      | some ds2 =>
        obtain ⟨hne2, hdig2⟩ := gM ds2 rfl
        have hsp : spanDigits (ds2 ++ ('M' :: durPart dS 'S'))
            = (ds2, 'M' :: durPart dS 'S') :=
          spanDigits_append ds2 _ hdig2 (by intro c hc; simp at hc; subst hc; decide)
        have hl : durPart (some ds2) 'M' ++ durPart dS 'S'
            = ds2 ++ ('M' :: durPart dS 'S') := by simp [durPart]
        rw [hl, durH]
        simp [hsp]
      | none =>
        cases dS with
        | none => rfl
        | some ds3 =>
          obtain ⟨hne3, hdig3⟩ := gS ds3 rfl
          have hsp : spanDigits (ds3 ++ ['S']) = (ds3, ['S']) :=
            spanDigits_append ds3 _ hdig3 (by intro c hc; simp at hc; subst hc; decide)
          have hl : durPart (none : Option (List Char)) 'M' ++ durPart (some ds3) 'S'
              = ds3 ++ ['S'] := by simp [durPart]
          rw [hl, durH]
          simp [hsp]
    rw [show durPart (none : Option (List Char)) 'H' ++ (durPart dM 'M' ++ durPart dS 'S')
        = durPart dM 'M' ++ durPart dS 'S' by simp [durPart]]
    rw [hfall]
    simpa [durVal] using durM_part d 0 dM dS gM gS

theorem durT_part (v : Nat) (t : Bool) (dH dM dS : Option (List Char))
    (gH : goodDigits dH) (gM : goodDigits dM) (gS : goodDigits dS)
    (ht : t = false → dH = none ∧ dM = none ∧ dS = none) :
    durT v (if t then 'T' :: (durPart dH 'H' ++ durPart dM 'M' ++ durPart dS 'S') else [])
      = some (msOf v (durVal dH) (durVal dM) (durVal dS)) := by
  cases t with
  | true =>
    simp only [if_pos, durT]
    simpa [List.append_assoc] using durH_part v dH dM dS gH gM gS
  | false =>
    obtain ⟨h1, h2, h3⟩ := ht rfl
    subst h1; subst h2; subst h3
    rfl

theorem durAfterP_part (dD : Option (List Char)) (t : Bool) (dH dM dS : Option (List Char))
    (gD : goodDigits dD) (gH : goodDigits dH) (gM : goodDigits dM) (gS : goodDigits dS)
    (ht : t = false → dH = none ∧ dM = none ∧ dS = none) :
    durAfterP (durPart dD 'D' ++
        (if t then 'T' :: (durPart dH 'H' ++ durPart dM 'M' ++ durPart dS 'S') else []))
      = some (msOf (durVal dD) (durVal dH) (durVal dM) (durVal dS)) := by
  cases dD with
  | some ds =>
    obtain ⟨hne, hdig⟩ := gD ds rfl
    have hhead : ∀ c, (('D' :: (if t then 'T' :: (durPart dH 'H' ++ durPart dM 'M' ++
        durPart dS 'S') else [])) : List Char).head? = some c → isAsciiDigit c = false := by
      intro c hc
      simp at hc
      subst hc
      decide
    have hsp := spanDigits_append ds _ hdig hhead
    have hl : durPart (some ds) 'D' ++
        (if t then 'T' :: (durPart dH 'H' ++ durPart dM 'M' ++ durPart dS 'S') else [])
        = ds ++ ('D' :: (if t then 'T' :: (durPart dH 'H' ++ durPart dM 'M' ++
            durPart dS 'S') else [])) := by simp [durPart]
    rw [hl, durAfterP]
    simp only [hsp, hne, ne_eq, not_false_eq_true, if_true]
    exact durT_part (digitsToNat ds) t dH dM dS gH gM gS ht
  | none =>
    rw [show durPart (none : Option (List Char)) 'D' ++
        (if t then 'T' :: (durPart dH 'H' ++ durPart dM 'M' ++ durPart dS 'S') else [])
        = (if t then 'T' :: (durPart dH 'H' ++ durPart dM 'M' ++ durPart dS 'S') else [])
      by simp [durPart]]
    cases t with
    | true =>
      rw [durAfterP]
      simp only [if_pos]
      have hsp : spanDigits ('T' :: (durPart dH 'H' ++ durPart dM 'M' ++ durPart dS 'S'))
          = ([], 'T' :: (durPart dH 'H' ++ durPart dM 'M' ++ durPart dS 'S')) := by
        have := spanDigits_append [] ('T' :: (durPart dH 'H' ++ durPart dM 'M' ++
          durPart dS 'S')) rfl (by intro c hc; simp at hc; subst hc; decide)
        simpa using this
      simp only [hsp, ne_eq, not_true_eq_false, if_false]
      have := durT_part 0 true dH dM dS gH gM gS (by intro hf; cases hf)
      simpa [durVal] using this
    | false =>
      obtain ⟨h1, h2, h3⟩ := ht rfl
      subst h1; subst h2; subst h3
      rfl

theorem durPart_chars (o : Option (List Char)) (g : goodDigits o) (letter : Char)
    (hl : 48 ≤ letter.toNat ∧ letter.toNat ≤ 90) :
    ∀ c ∈ durPart o letter, 48 ≤ c.toNat ∧ c.toNat ≤ 90 := by
  cases o with
  | none => simp [durPart]
  | some ds =>
    intro c hc
    simp only [durPart, List.mem_append, List.mem_singleton] at hc
    rcases hc with hc | hc
    · have hd := (g ds rfl).2
      have hdc : isAsciiDigit c = true := List.all_eq_true.mp hd c hc
      simp only [isAsciiDigit, Bool.and_eq_true, decide_eq_true_eq] at hdc
      omega
    · subst hc; exact hl

theorem durStr_chars (dD : Option (List Char)) (t : Bool) (dH dM dS : Option (List Char))
    (gD : goodDigits dD) (gH : goodDigits dH) (gM : goodDigits dM) (gS : goodDigits dS) :
    ∀ c ∈ (durStr dD t dH dM dS).data, 48 ≤ c.toNat ∧ c.toNat ≤ 90 := by
  intro c hc
  simp only [durStr, List.mem_cons, List.mem_append] at hc
  rcases hc with hc | hc | hc
  · subst hc; exact ⟨by decide, by decide⟩
  · exact durPart_chars dD gD 'D' ⟨by decide, by decide⟩ c hc
  · cases t with
    | false => simp at hc
    | true =>
      rw [if_pos rfl] at hc
      rcases List.mem_cons.mp hc with hc | hc
      · subst hc; exact ⟨by decide, by decide⟩
      · rcases List.mem_append.mp hc with hc | hc
        · rcases List.mem_append.mp hc with hc | hc
          · exact durPart_chars dH gH 'H' ⟨by decide, by decide⟩ c hc
          · exact durPart_chars dM gM 'M' ⟨by decide, by decide⟩ c hc
        · exact durPart_chars dS gS 'S' ⟨by decide, by decide⟩ c hc

theorem parse_durStr (dD : Option (List Char)) (t : Bool) (dH dM dS : Option (List Char))
    (gD : goodDigits dD) (gH : goodDigits dH) (gM : goodDigits dM) (gS : goodDigits dS)
    (ht : t = false → dH = none ∧ dM = none ∧ dS = none) :
    parseIcsDurationToMs (durStr dD t dH dM dS)
      = some (msOf (durVal dD) (durVal dH) (durVal dM) (durVal dS)) := by
  have hch := durStr_chars dD t dH dM dS gD gH gM gS
  have htrim : jsTrim (durStr dD t dH dM dS) = durStr dD t dH dM dS :=
    jsTrim_eq_self (fun c hc => (durChar_fixed c (hch c hc).1 (hch c hc).2).1)
  have hupper : asciiUpperStr (durStr dD t dH dM dS) = durStr dD t dH dM dS :=
    asciiUpperStr_eq_self (fun c hc => (durChar_fixed c (hch c hc).1 (hch c hc).2).2)
  have hmain : parseIcsDurationToMs (durStr dD t dH dM dS)
      = durAfterP (durPart dD 'D' ++
          (if t then 'T' :: (durPart dH 'H' ++ durPart dM 'M' ++ durPart dS 'S') else [])) := by
    rw [parseIcsDurationToMs, htrim, hupper]
    rfl
  rw [hmain]
  exact durAfterP_part dD t dH dM dS gD gH gM gS ht

/-- C2 (counterexample): the entirely component-free durations `P` and
`PT` are not treated as invalid — they parse as a zero-millisecond
duration, so an end is computed (start plus zero), contradicting the
claim's no-computed-end clause. -/
theorem component_free_duration_yields_end :
    parseIcsDurationToMs "P" = some 0 ∧
    parseIcsDurationToMs "PT" = some 0 ∧
    computeEndFromDuration mockDateEnv "Lx" (some "P") = some "ISO1000" := by decide

/-- C2 (amended): a duration of shape `P[nD][T[nH][nM][nS]]` parses to its
millisecond value with each component optional — including the entirely
component-free `P`/`PT`, which parse as zero rather than being invalid —
and an event with non-empty start, empty end and a parseable duration gets
its end computed as start-plus-duration; when no end is present and no end
can be computed from the duration, the end is set equal to the start; in
particular start `20260105T080000` with duration `PT1H30M` and no explicit
end yields an end 90 minutes (5 400 000 ms) after the decoded start. -/
theorem duration_fallback_behavior :
    (∀ (dD : Option (List Char)) (t : Bool) (dH dM dS : Option (List Char)),
      goodDigits dD → goodDigits dH → goodDigits dM → goodDigits dS →
      (t = false → dH = none ∧ dM = none ∧ dS = none) →
      parseIcsDurationToMs (durStr dD t dH dM dS)
        = some (msOf (durVal dD) (durVal dH) (durVal dM) (durVal dS))) ∧
    (∀ (env : DateEnv) (c : IcsCurrent) (dur : String) (ms : Nat) (tv : Int),
      jsTrim (c.summary.getD "") ≠ "" →
      jsTrim (c.start.getD "") ≠ "" →
      jsTrim (c.stop.getD "") = "" →
      c.duration = some dur →
      parseIcsDurationToMs dur = some ms →
      env.parseMs (jsTrim (c.start.getD "")) = some tv →
      env.isoOfMs (tv + (ms : Int)) ≠ "" →
      (closeEvent env c).map TrainexEvent.stop = some (env.isoOfMs (tv + (ms : Int)))) ∧
    (∀ (env : DateEnv) (c : IcsCurrent),
      jsTrim (c.summary.getD "") ≠ "" →
      jsTrim (c.start.getD "") ≠ "" →
      jsTrim (c.stop.getD "") = "" →
      computeEndFromDuration env (jsTrim (c.start.getD "")) c.duration = none →
      (closeEvent env c).map TrainexEvent.stop = some (jsTrim (c.start.getD ""))) ∧
    (∀ (env : DateEnv) (tv : Int),
      jsTrim (env.localToIso 2026 0 5 8 0 0) = env.localToIso 2026 0 5 8 0 0 →
      env.localToIso 2026 0 5 8 0 0 ≠ "" →
      env.parseMs (env.localToIso 2026 0 5 8 0 0) = some tv →
      env.isoOfMs (tv + 5400000) ≠ "" →
      parseIcsToEvents env c2Text = [c2Event env tv]) := by
  refine ⟨parse_durStr, ?_, ?_, ?_⟩
  · intro env c dur ms tv h1 h2 h3 h4 h5 h6 h7
    have hdne : dur ≠ "" := by
      intro h0
      rw [h0] at h5
      rw [show parseIcsDurationToMs "" = none from rfl] at h5
      cases h5
    have hce : computeEndFromDuration env (jsTrim (c.start.getD "")) c.duration
        = some (env.isoOfMs (tv + (ms : Int))) := by
      rw [h4, computeEndFromDuration]
      simp [hdne, h5, h6]
    simp [closeEvent, h1, h2, h3, hce, h7]
  · intro env c h1 h2 h3 hcd
    simp [closeEvent, h1, h2, h3, hcd]
  · intro env tv hL hne hp hiso
    have hlines : icsLines c2Text =
        ["BEGIN:VEVENT", "SUMMARY:X", "DTSTART:20260105T080000",
         "DURATION:PT1H30M", "END:VEVENT"] := by decide
    rw [parseIcsToEvents, hlines, processLines_eq_blocks]
    have hblocks : closedBlocks none
        ["BEGIN:VEVENT", "SUMMARY:X", "DTSTART:20260105T080000",
         "DURATION:PT1H30M", "END:VEVENT"]
        = [["SUMMARY:X", "DTSTART:20260105T080000", "DURATION:PT1H30M"]] := by decide
    rw [hblocks]
    have hacc : blockAccum env ["SUMMARY:X", "DTSTART:20260105T080000", "DURATION:PT1H30M"]
        = { summary := some "X", start := some (env.localToIso 2026 0 5 8 0 0),
            duration := some "PT1H30M" } := rfl
    have hce : computeEndFromDuration env (env.localToIso 2026 0 5 8 0 0)
        (some "PT1H30M") = some (env.isoOfMs (tv + 5400000)) := by
      rw [computeEndFromDuration]
      simp [show parseIcsDurationToMs "PT1H30M" = some 5400000 from by decide, hp]
    have hemit : emitBlock env ["SUMMARY:X", "DTSTART:20260105T080000", "DURATION:PT1H30M"]
        = some (c2Event env tv) := by
      rw [emitBlock, hacc, closeEvent]
      simp only [Option.getD_some, Option.getD_none]
      rw [hL]
      rw [if_pos ⟨by decide, hne⟩]
      simp [hce, hiso, c2Event, optTrimOrNone,
        show jsTrim "X" = "X" from by decide, show jsTrim "" = "" from rfl]
    simp [hemit, jsSortEvents, insertRight]

end Trainex
